import Mathlib

/-!
Verification of the siobrultech-protocols GEM packet decoder and API-call
protocol.  The definitions below are a shallow embedding of
`src/siobrultech_protocols/gem/packets.py` and
`src/siobrultech_protocols/gem/api.py`.  The field decoders
(`fields.py`), the transport protocol object (`protocol.py`) and the
command constant (`const.py`) are not part of the given sources; those
parts are modelled from the specification and are marked as such in
their doc comments.
-/

/-- Modelled from the spec: byte-order selectors for multi-byte integers
(`hi_to_lo`, `lo_to_hi`, `lo_to_hi_signed` in the missing `fields.py`):
most-significant-byte-first, least-significant-byte-first, and
least-significant-byte-first with two's-complement reinterpretation. -/
inductive ByteOrder
  | hiToLo
  | loToHi
  | loToHiSigned
deriving DecidableEq, Repr

/-- Modelled from the spec: assemble an unsigned integer from a
most-significant-byte-first byte sequence. -/
def assembleBE (bs : List Nat) : Nat :=
  bs.foldl (fun acc b => 256 * acc + b) 0

/-- Modelled from the spec: reinterpret an assembled `w`-byte unsigned
magnitude as a two's-complement signed integer. -/
def toSigned (w : Nat) (n : Nat) : Int :=
  if n < 2 ^ (8 * w - 1) then (n : Int) else (n : Int) - 2 ^ (8 * w)

/-- Modelled from the spec: a byte-order function assembles the bytes of
one numeric value; the signed variant reinterprets the magnitude as
two's-complement. -/
def ByteOrder.assemble : ByteOrder → List Nat → Int
  | .hiToLo, bs => (assembleBE bs : Int)
  | .loToHi, bs => (assembleBE bs.reverse : Int)
  | .loToHiSigned, bs => toSigned bs.length (assembleBE bs.reverse)

/-- Modelled from the spec: the polymorphic field variants of the field
model (`fields.py` is not among the given sources): unsigned integers,
scaled integers, raw bytes, a fixed-width timestamp and fixed-length
arrays.  `DateTimeField` is taken to be 6 bytes wide; the spec says only
"fixed width" and no claim depends on the exact width or encoding, so its
decoded value is kept as the raw bytes. -/
inductive GemField
  | numeric (width : Nat) (order : ByteOrder)
  | floating (width : Nat) (order : ByteOrder) (divisor : ℚ)
  | byte
  | bytesRaw (length : Nat)
  | dateTime
  | numericArray (count elemWidth : Nat) (order : ByteOrder)
  | floatingArray (count elemWidth : Nat) (order : ByteOrder) (divisor : ℚ)
deriving DecidableEq, Repr

/-- Modelled from the spec: `size_in_bytes` of each field variant. -/
def GemField.size : GemField → Nat
  | .numeric w _ => w
  | .floating w _ _ => w
  | .byte => 1
  | .bytesRaw n => n
  | .dateTime => 6
  | .numericArray c ew _ => c * ew
  | .floatingArray c ew _ _ => c * ew

/-- Modelled from the spec: the decoded value of a field, one variant per
field kind (Python is dynamically typed; the decoded dictionary holds
ints, floats, lists and raw bytes). -/
inductive FieldValue
  | num (i : Int)
  | float (q : ℚ)
  | numList (l : List Int)
  | floatList (l : List ℚ)
  | bytesVal (bs : List Nat)
  | dateTime (bs : List Nat)
deriving DecidableEq, Repr

/-- Modelled from the spec: extract `width` bytes of the buffer starting
at `offset` (Python slice semantics: a slice beyond the end is silently
truncated, no bounds check at this level). -/
def readBytes (packet : List Nat) (offset width : Nat) : List Nat :=
  (packet.drop offset).take width

/-- Modelled from the spec: an array field decodes `count` consecutive
elements of `elemWidth` bytes each. -/
def readArray (packet : List Nat) (offset count elemWidth : Nat)
    (dec : List Nat → α) : List α :=
  (List.range count).map fun i => dec (readBytes packet (offset + i * elemWidth) elemWidth)

/-- Modelled from the spec: `decode(buffer, offset)` of each field
variant; consumes exactly `size_in_bytes` bytes, no bounds checking. -/
def GemField.read (f : GemField) (packet : List Nat) (offset : Nat) : FieldValue :=
  match f with
  | .numeric w ord => .num (ord.assemble (readBytes packet offset w))
  | .floating w ord d => .float ((ord.assemble (readBytes packet offset w) : ℚ) / d)
  | .byte => .num (packet.getD offset 0)
  | .bytesRaw n => .bytesVal (readBytes packet offset n)
  | .dateTime => .dateTime (readBytes packet offset 6)
  | .numericArray c ew ord => .numList (readArray packet offset c ew ord.assemble)
  | .floatingArray c ew ord d =>
      .floatList (readArray packet offset c ew (fun bs => (ord.assemble bs : ℚ) / d))

/-- The `PacketFormat` constructor arguments (packets.py line 116): a name,
a channel count and the two layout flags. -/
structure PacketFormat where
  name : String
  num_channels : Nat
  has_net_metering : Bool
  has_time_stamp : Bool
deriving DecidableEq, Repr

/-- The ordered field map built by `PacketFormat.__init__`
(packets.py lines 125-157), translated entry for entry. -/
def PacketFormat.fields (pf : PacketFormat) : List (String × GemField) :=
  [("header", .numeric 3 .hiToLo),
   ("voltage", .floating 2 .hiToLo 10),
   ("absolute_watt_seconds", .numericArray pf.num_channels 5 .loToHi)]
  ++ (if pf.has_net_metering then
        [("polarized_watt_seconds", GemField.numericArray pf.num_channels 5 .loToHi)]
      else [])
  ++ [("serial_number", .numeric 2 .hiToLo),
      ("reserved", .byte),
      ("device_id", .numeric 1 .hiToLo),
      ("currents", .floatingArray pf.num_channels 2 .loToHi 50),
      ("seconds", .numeric 3 .loToHi),
      ("pulse_counts", .numericArray 4 3 .loToHi),
      ("temperatures", .floatingArray 8 2 .loToHiSigned 2)]
  ++ (if pf.num_channels == 32 then [("spare_bytes", GemField.bytesRaw 2)] else [])
  ++ (if pf.has_time_stamp then [("time_stamp", GemField.dateTime)] else [])
  ++ [("footer", .numeric 2 .hiToLo),
      ("checksum", .byte)]

/-- The `size` property (packets.py lines 159-165): accumulate the field
sizes in declaration order. -/
def PacketFormat.size (pf : PacketFormat) : Nat :=
  pf.fields.foldl (fun result kv => result + kv.2.size) 0

/-- The decoded packet (packets.py `Packet.__init__`).  `currents` and
`polarized_watt_seconds` are optional exactly as in the source;
`time_stamp` is `none` when the format carries no timestamp field (the
Python code then stores the wall-clock decode time, which is outside the
model); when present it holds the raw timestamp bytes. -/
structure Packet where
  packet_format : PacketFormat
  voltage : ℚ
  absolute_watt_seconds : List Int
  polarized_watt_seconds : Option (List Int) := none
  currents : Option (List ℚ) := none
  device_id : Int
  serial_number : Int
  seconds : Int
  pulse_counts : List Int
  temperatures : List ℚ
  time_stamp : Option (List Nat) := none
deriving DecidableEq, Repr

/-- Single error kind raised by the decoder (`MalformedPacketException`,
packets.py line 28), plus a `typeError` variant standing for the
`TypeError` Python would raise if `Packet(**args)` were called with a
required keyword argument missing (the theorems show this never happens
for the five formats). -/
inductive DecodeError
  | malformedPacket (message : String)
  | typeError
deriving DecidableEq, Repr

/-- The field-decoding loop of `parse` (packets.py lines 176-182): read
each field in declared order, advancing the offset by the field's size. -/
def readFields : List (String × GemField) → List Nat → Nat → List (String × FieldValue)
  | [], _, _ => []
  | (k, f) :: rest, packet, offset =>
      (k, f.read packet offset) :: readFields rest packet (offset + f.size)

/-- Dictionary access `args[k]` expecting an integer value. -/
def lookupInt (args : List (String × FieldValue)) (k : String) : Option Int :=
  match List.lookup k args with
  | some (.num i) => some i
  | _ => none

/-- Dictionary access `args[k]` expecting a scaled (float) value. -/
def lookupFloat (args : List (String × FieldValue)) (k : String) : Option ℚ :=
  match List.lookup k args with
  | some (.float q) => some q
  | _ => none

/-- Dictionary access `args[k]` expecting an integer array value. -/
def lookupIntList (args : List (String × FieldValue)) (k : String) : Option (List Int) :=
  match List.lookup k args with
  | some (.numList l) => some l
  | _ => none

/-- Dictionary access `args[k]` expecting a float array value. -/
def lookupFloatList (args : List (String × FieldValue)) (k : String) : Option (List ℚ) :=
  match List.lookup k args with
  | some (.floatList l) => some l
  | _ => none

/-- Dictionary access `args[k]` expecting a timestamp value. -/
def lookupDateTime (args : List (String × FieldValue)) (k : String) : Option (List Nat) :=
  match List.lookup k args with
  | some (.dateTime bs) => some bs
  | _ => none

/-- `Packet(**args)` (packets.py line 191 and `Packet.__init__`): the
required keyword arguments must be present with the right type, the
optional ones (`polarized_watt_seconds`, `currents`, `time_stamp`)
default to `None`, and all other keys (`header`, `reserved`,
`spare_bytes`, `footer`, `checksum`) are absorbed by `**kwargs` and
ignored. -/
def mkPacket (pf : PacketFormat) (args : List (String × FieldValue)) : Option Packet :=
  match lookupFloat args "voltage", lookupIntList args "absolute_watt_seconds",
        lookupInt args "device_id", lookupInt args "serial_number",
        lookupInt args "seconds", lookupIntList args "pulse_counts",
        lookupFloatList args "temperatures" with
  | some voltage, some aws, some device_id, some serial_number,
    some seconds, some pulse_counts, some temperatures =>
      some { packet_format := pf
             voltage := voltage
             absolute_watt_seconds := aws
             polarized_watt_seconds := lookupIntList args "polarized_watt_seconds"
             currents := lookupFloatList args "currents"
             device_id := device_id
             serial_number := serial_number
             seconds := seconds
             pulse_counts := pulse_counts
             temperatures := temperatures
             time_stamp := lookupDateTime args "time_stamp" }
  | _, _, _, _, _, _, _ => none

/-- Lowercase hexadecimal digit. -/
def hexDigit (n : Nat) : Char :=
  if n < 10 then Char.ofNat (48 + n) else Char.ofNat (87 + n)

/-- Two lowercase hexadecimal digits of one byte. -/
def hexByte (b : Nat) : List Char :=
  [hexDigit (b / 16 % 16), hexDigit (b % 16)]

/-- Rendering of a byte buffer as hexadecimal text
(`codecs.encode(packet, "hex")` in packets.py). -/
def hexStr (bs : List Nat) : String :=
  String.mk ((bs.map hexByte).flatten)

/-- Rendering of a nonnegative integer the way Python's `hex` builtin
does (packets.py line 187; the footer value decoded there is always
nonnegative). -/
def hexNum (i : Int) : String :=
  "0x" ++ String.mk (Nat.toDigits 16 i.toNat)

/-- The checksum computation of `_checksum` (packets.py lines 194-198):
sum of the first `size - 1` bytes, reduced mod 256. -/
def checksumCalc (packet : List Nat) (size : Nat) : Nat :=
  ((packet.take (size - 1)).foldl (fun checksum i => checksum + i) 0) % 256

/-- `PacketFormat.parse` (packets.py lines 167-191): length check,
checksum check (`_checksum`, which compares against the byte at index
`size - 1`), field decoding loop, footer check, packet construction. -/
def PacketFormat.parse (pf : PacketFormat) (packet : List Nat) : Except DecodeError Packet :=
  if packet.length < pf.size then
    .error (.malformedPacket ("Packet too short. Expected " ++ toString pf.size
      ++ " bytes, found " ++ toString packet.length ++ " bytes."))
  else if checksumCalc packet pf.size ≠ packet.getD (pf.size - 1) 0 then
    .error (.malformedPacket ("bad checksum for packet: " ++ hexStr (packet.take pf.size)))
  else
    let args := readFields pf.fields packet 0
    match lookupInt args "footer" with
    | none => .error .typeError
    | some footer =>
      if footer ≠ 0xFFFE then
        .error (.malformedPacket ("bad footer " ++ hexNum footer
          ++ " in packet: " ++ hexStr packet))
      else
        match mkPacket pf args with
        | none => .error .typeError
        | some p => .ok p

/-- `BIN48_NET_TIME` (packets.py line 205). -/
def BIN48_NET_TIME : PacketFormat :=
  { name := "BIN48-NET-TIME", num_channels := 48,
    has_net_metering := true, has_time_stamp := true }

/-- `BIN48_NET` (packets.py line 209). -/
def BIN48_NET : PacketFormat :=
  { name := "BIN48-NET", num_channels := 48,
    has_net_metering := true, has_time_stamp := false }

/-- `BIN48_ABS` (packets.py line 213). -/
def BIN48_ABS : PacketFormat :=
  { name := "BIN48-ABS", num_channels := 48,
    has_net_metering := false, has_time_stamp := false }

/-- `BIN32_NET` (packets.py line 217). -/
def BIN32_NET : PacketFormat :=
  { name := "BIN32-NET", num_channels := 32,
    has_net_metering := true, has_time_stamp := false }

/-- `BIN32_ABS` (packets.py line 221). -/
def BIN32_ABS : PacketFormat :=
  { name := "BIN32-ABS", num_channels := 32,
    has_net_metering := false, has_time_stamp := false }

/-- The five process-wide constant formats. -/
def gemFormats : List PacketFormat :=
  [BIN48_NET_TIME, BIN48_NET, BIN48_ABS, BIN32_NET, BIN32_ABS]

/-- `Packet.max_seconds` (packets.py lines 87-90): the `max` of the
`seconds` field, which the missing `fields.py` derives from the byte
width (modelled from the spec: a `w`-byte counter's max is `2^(8w)-1`).
`none` stands for the `KeyError` / failed `assert` of the Python code. -/
def Packet.max_seconds (p : Packet) : Option Nat :=
  match List.lookup "seconds" p.packet_format.fields with
  | some (.numeric w _) => some (2 ^ (8 * w) - 1)
  | _ => none

/-- `Packet.max_pulse_count` (packets.py lines 92-95): the element
field's max of the `pulse_counts` array field. -/
def Packet.max_pulse_count (p : Packet) : Option Nat :=
  match List.lookup "pulse_counts" p.packet_format.fields with
  | some (.numericArray _ ew _) => some (2 ^ (8 * ew) - 1)
  | _ => none

/-- `Packet.max_absolute_watt_seconds` (packets.py lines 97-102). -/
def Packet.max_absolute_watt_seconds (p : Packet) : Option Nat :=
  match List.lookup "absolute_watt_seconds" p.packet_format.fields with
  | some (.numericArray _ ew _) => some (2 ^ (8 * ew) - 1)
  | _ => none

/-- `Packet.max_polarized_watt_seconds` (packets.py lines 104-109):
the lookup of the `polarized_watt_seconds` field, which is absent from
the absolute-only formats (`none` models the `KeyError` raised there). -/
def Packet.max_polarized_watt_seconds (p : Packet) : Option Nat :=
  match List.lookup "polarized_watt_seconds" p.packet_format.fields with
  | some (.numericArray _ ew _) => some (2 ^ (8 * ew) - 1)
  | _ => none

/-- Modelled from the spec: one observable interaction with the
transport collaborator or the scheduler.  `sleepFor` records a
`asyncio.sleep` suspension of that many seconds. -/
inductive Event
  | beginReq
  | sleepFor (seconds : Nat)
  | send (request : String)
  | receive
  | endReq
deriving DecidableEq, Repr

/-- Modelled from the spec: the transport collaborator
(`BidirectionalProtocol` in the missing `protocol.py`), exposing only
`begin_api_request() -> delay`, `send_api_request(text) -> delay`,
`receive_api_response() -> text` and `end_api_request()`.  Delays are
the `seconds` of the returned `timedelta`. -/
structure BidirectionalProtocol where
  begin_delay : Nat
  send_delay : Nat
  response : String
deriving DecidableEq, Repr

/-- Modelled from the spec: `begin_api_request` records its invocation
and returns the settle delay. -/
def BidirectionalProtocol.begin_api_request (p : BidirectionalProtocol) :
    List Event × Nat :=
  ([.beginReq], p.begin_delay)

/-- Modelled from the spec: `send_api_request` records the sent text and
returns the turnaround delay. -/
def BidirectionalProtocol.send_api_request (p : BidirectionalProtocol) (request : String) :
    List Event × Nat :=
  ([.send request], p.send_delay)

/-- Modelled from the spec: `receive_api_response` records its
invocation and returns the response text. -/
def BidirectionalProtocol.receive_api_response (p : BidirectionalProtocol) :
    List Event × String :=
  ([.receive], p.response)

/-- Modelled from the spec: `end_api_request` records its invocation. -/
def BidirectionalProtocol.end_api_request (_ : BidirectionalProtocol) : List Event :=
  [Event.endReq]

/-- `ApiCall` (api.py lines 15-31): a formatter and a parser.  The
parser returns an `Option` because the underlying conversion (such as
`int(response)`) may raise; that fault propagates unwrapped. -/
structure ApiCall (T R : Type) where
  formatter : T → String
  parser : String → Option R

/-- `ApiCall.send_request` (api.py lines 33-39): format the argument,
send it, return the delay to wait before receiving. -/
def ApiCall.send_request (api : ApiCall T R) (protocol : BidirectionalProtocol) (arg : T) :
    List Event × Nat :=
  protocol.send_api_request (api.formatter arg)

/-- `ApiCall.receive_response` (api.py lines 41-48): receive the
response text and parse it. -/
def ApiCall.receive_response (api : ApiCall T R) (protocol : BidirectionalProtocol) :
    List Event × Option R :=
  let (ev, response) := protocol.receive_api_response
  (ev, api.parser response)

/-- The inner `send` coroutine of `call_api` (api.py lines 55-59): send
the request, suspend for the returned delay, then receive and parse the
response.  The event list makes the strict send-sleep-receive order
observable. -/
def callApiSender (api : ApiCall T R) (protocol : BidirectionalProtocol) (arg : T) :
    List Event × Option R :=
  let (ev1, delay) := api.send_request protocol arg
  let (ev2, result) := api.receive_response protocol
  (ev1 ++ [Event.sleepFor delay] ++ ev2, result)

/-- `call_api` (api.py lines 51-66): begin the request, suspend for the
returned settle delay, run the caller's scoped block with the sender,
and unconditionally (`try`/`finally`) end the request.  The block is an
arbitrary function of the sender; its result (which may represent a
fault) is propagated unchanged, and the end event is appended on every
exit path. -/
def call_api (api : ApiCall T R) (protocol : BidirectionalProtocol)
    (block : (T → List Event × Option R) → List Event × β) :
    List Event × β :=
  let (ev0, delay) := protocol.begin_api_request
  let (evb, result) := block (callApiSender api protocol)
  (ev0 ++ [Event.sleepFor delay] ++ evb ++ protocol.end_api_request, result)

/-- Modelled from the spec: the fixed command literal
`CMD_GET_SERIAL_NUMBER` of the missing `const.py`.  The spec gives no
text for it and no claim depends on it. -/
def CMD_GET_SERIAL_NUMBER : String := "REQUEST_SERIAL_NUMBER"

/-- Modelled from the spec: the digits of a nonempty decimal numeral,
accumulated left to right; any non-digit character is a conversion
failure. -/
def parseDecimalDigits (cs : List Char) : Option Nat :=
  if cs.isEmpty then none
  else cs.foldl (fun acc c =>
    acc.bind (fun n =>
      if 48 ≤ c.toNat ∧ c.toNat ≤ 57 then some (n * 10 + (c.toNat - 48)) else none))
    (some 0)

/-- Modelled from the spec: Python's `int(response)` conversion of
decimal response text to an integer; a malformed numeral is a fault
(`none`), which propagates unwrapped. -/
def parseDecimal (s : String) : Option Int :=
  match s.data with
  | '-' :: rest => (parseDecimalDigits rest).map (fun n => -(n : Int))
  | cs => (parseDecimalDigits cs).map (fun n => (n : Int))

/-- `GET_SERIAL_NUMBER` (api.py lines 69-72): the formatter ignores its
argument and emits the fixed command literal; the parser is Python's
`int`, modelled as decimal integer conversion that may fail. -/
def GET_SERIAL_NUMBER : ApiCall Unit Int :=
  { formatter := fun _ => CMD_GET_SERIAL_NUMBER
    parser := fun response => parseDecimal response }

/-- `get_serial_number` (api.py lines 75-77): open the scoped
transaction and invoke the sender once with no argument. -/
def get_serial_number (protocol : BidirectionalProtocol) : List Event × Option Int :=
  call_api GET_SERIAL_NUMBER protocol (fun f => f ())

/-- Little-endian base-256 byte encoding of a natural number, `width`
bytes wide.  This is the claim-side inverse of the least-significant
byte-first assembly; it is used only to construct round-trip buffers. -/
def natToLE : Nat → Nat → List Nat
  | 0, _ => []
  | w + 1, n => n % 256 :: natToLE w (n / 256)

/-- Big-endian base-256 byte encoding, the claim-side inverse of the
most-significant byte-first assembly. -/
def natToBE (w n : Nat) : List Nat :=
  (natToLE w n).reverse

/-- Two's-complement little-endian encoding of a signed value, the
claim-side inverse of the signed least-significant byte-first order. -/
def intToLE (w : Nat) (i : Int) : List Nat :=
  natToLE w (i.emod (2 ^ (8 * w))).toNat

/-- One choice of field values for a round-trip buffer: the raw integer
values that the wire format carries.  Scaled fields (voltage, currents,
temperatures) are given as the raw integers before division by the
scaling divisor. -/
structure PacketValues where
  header : Nat
  voltage : Nat
  absolute_watt_seconds : List Nat
  polarized_watt_seconds : List Nat
  serial_number : Nat
  reserved : Nat
  device_id : Nat
  currents : List Nat
  seconds : Nat
  pulse_counts : List Nat
  temperatures : List Int
  spare_bytes : List Nat
  time_stamp : List Nat
deriving DecidableEq, Repr

/-- Validity of a choice of field values for a format: each value fits
its field's byte width and each array has the declared length. -/
def validValues (pf : PacketFormat) (v : PacketValues) : Prop :=
  v.header < 256 ^ 3 ∧
  v.voltage < 256 ^ 2 ∧
  v.absolute_watt_seconds.length = pf.num_channels ∧
  (∀ x ∈ v.absolute_watt_seconds, x < 256 ^ 5) ∧
  v.polarized_watt_seconds.length = pf.num_channels ∧
  (∀ x ∈ v.polarized_watt_seconds, x < 256 ^ 5) ∧
  v.serial_number < 256 ^ 2 ∧
  v.reserved < 256 ∧
  v.device_id < 256 ∧
  v.currents.length = pf.num_channels ∧
  (∀ x ∈ v.currents, x < 256 ^ 2) ∧
  v.seconds < 256 ^ 3 ∧
  v.pulse_counts.length = 4 ∧
  (∀ x ∈ v.pulse_counts, x < 256 ^ 3) ∧
  v.temperatures.length = 8 ∧
  (∀ x ∈ v.temperatures, -(2 ^ 15) ≤ x ∧ x < 2 ^ 15) ∧
  v.spare_bytes.length = 2 ∧
  v.time_stamp.length = 6

instance (pf : PacketFormat) (v : PacketValues) : Decidable (validValues pf v) := by
  unfold validValues
  infer_instance

/-- One declared field together with the bytes that encode the chosen
value for it.  This drives both the claim-side buffer construction and
the round-trip proof. -/
structure FieldSpec where
  name : String
  fld : GemField
  chunk : List Nat
deriving Repr

/-- The declared fields of a format (checksum aside) paired with the
encoding of the chosen values, in declaration order, with footer
`0xFFFE`. -/
def specList (pf : PacketFormat) (v : PacketValues) : List FieldSpec :=
  [⟨"header", .numeric 3 .hiToLo, natToBE 3 v.header⟩,
   ⟨"voltage", .floating 2 .hiToLo 10, natToBE 2 v.voltage⟩,
   ⟨"absolute_watt_seconds", .numericArray pf.num_channels 5 .loToHi,
     (v.absolute_watt_seconds.map (natToLE 5)).flatten⟩]
  ++ (if pf.has_net_metering then
        [⟨"polarized_watt_seconds", GemField.numericArray pf.num_channels 5 .loToHi,
          (v.polarized_watt_seconds.map (natToLE 5)).flatten⟩]
      else [])
  ++ [⟨"serial_number", .numeric 2 .hiToLo, natToBE 2 v.serial_number⟩,
      ⟨"reserved", .byte, [v.reserved]⟩,
      ⟨"device_id", .numeric 1 .hiToLo, natToBE 1 v.device_id⟩,
      ⟨"currents", .floatingArray pf.num_channels 2 .loToHi 50,
        (v.currents.map (natToLE 2)).flatten⟩,
      ⟨"seconds", .numeric 3 .loToHi, natToLE 3 v.seconds⟩,
      ⟨"pulse_counts", .numericArray 4 3 .loToHi,
        (v.pulse_counts.map (natToLE 3)).flatten⟩,
      ⟨"temperatures", .floatingArray 8 2 .loToHiSigned 2,
        (v.temperatures.map (intToLE 2)).flatten⟩]
  ++ (if pf.num_channels == 32 then [⟨"spare_bytes", GemField.bytesRaw 2, v.spare_bytes⟩] else [])
  ++ (if pf.has_time_stamp then [⟨"time_stamp", GemField.dateTime, v.time_stamp⟩] else [])
  ++ [⟨"footer", .numeric 2 .hiToLo, natToBE 2 0xFFFE⟩]

/-- The buffer body: the encoded field values in declared order (all
fields except the trailing checksum byte). -/
def encodeBody (pf : PacketFormat) (v : PacketValues) : List Nat :=
  ((specList pf v).map FieldSpec.chunk).flatten

/-- The complete round-trip buffer: the encoded body followed by a
checksum byte equal to the sum of the preceding bytes mod 256. -/
def encodePacket (pf : PacketFormat) (v : PacketValues) : List Nat :=
  encodeBody pf v ++ [(encodeBody pf v).sum % 256]

/-- The packet that `parse` is expected to return for the chosen
values: scaled fields divided by their divisor, the optional fields
present exactly when the format declares them. -/
def expectedPacket (pf : PacketFormat) (v : PacketValues) : Packet :=
  { packet_format := pf
    voltage := (v.voltage : ℚ) / 10
    absolute_watt_seconds := v.absolute_watt_seconds.map (fun (n : Nat) => (n : Int))
    polarized_watt_seconds :=
      if pf.has_net_metering then some (v.polarized_watt_seconds.map (fun (n : Nat) => (n : Int))) else none
    currents := some (v.currents.map (fun (n : Nat) => (n : ℚ) / 50))
    device_id := (v.device_id : Int)
    serial_number := (v.serial_number : Int)
    seconds := (v.seconds : Int)
    pulse_counts := v.pulse_counts.map (fun (n : Nat) => (n : Int))
    temperatures := v.temperatures.map (fun (t : Int) => (t : ℚ) / 2)
    time_stamp := if pf.has_time_stamp then some v.time_stamp else none }

deriving instance DecidableEq for Except

theorem natToLE_length (w n : Nat) : (natToLE w n).length = w := by
  induction w generalizing n with
  | zero => rfl
  | succ w ih => simp [natToLE, ih]

theorem natToBE_length (w n : Nat) : (natToBE w n).length = w := by
  simp [natToBE, natToLE_length]

theorem intToLE_length (w : Nat) (i : Int) : (intToLE w i).length = w := by
  simp [intToLE, natToLE_length]

theorem assembleBE_append_last (xs : List Nat) (b : Nat) :
    assembleBE (xs ++ [b]) = 256 * assembleBE xs + b := by
  simp [assembleBE, List.foldl_append]

theorem assembleBE_reverse_natToLE (w n : Nat) (h : n < 256 ^ w) :
    assembleBE (natToLE w n).reverse = n := by
  induction w generalizing n with
  | zero =>
      simp only [pow_zero, Nat.lt_one_iff] at h
      subst h
      rfl
  | succ w ih =>
      have hdiv : n / 256 < 256 ^ w := by
        have hp : n < 256 ^ w * 256 := by
          rw [pow_succ] at h
          exact h
        exact (Nat.div_lt_iff_lt_mul (by norm_num)).2 hp
      simp only [natToLE, List.reverse_cons, assembleBE_append_last, ih _ hdiv]
      omega

theorem assembleBE_natToBE (w n : Nat) (h : n < 256 ^ w) :
    assembleBE (natToBE w n) = n := by
  simpa [natToBE] using assembleBE_reverse_natToLE w n h

theorem assemble_be_natToBE (w n : Nat) (h : n < 256 ^ w) :
    ByteOrder.hiToLo.assemble (natToBE w n) = (n : Int) := by
  simp [ByteOrder.assemble, assembleBE_natToBE w n h]

theorem assemble_le_natToLE (w n : Nat) (h : n < 256 ^ w) :
    ByteOrder.loToHi.assemble (natToLE w n) = (n : Int) := by
  simp [ByteOrder.assemble, assembleBE_reverse_natToLE w n h]

theorem assemble_signed_intToLE (t : Int) (hlo : -(2 ^ 15) ≤ t) (hhi : t < 2 ^ 15) :
    ByteOrder.loToHiSigned.assemble (intToLE 2 t) = t := by
  have hlo32 : -32768 ≤ t := by omega
  have hhi32 : t < 32768 := by omega
  have hm : (t.emod (2 ^ (8 * 2))).toNat < 256 ^ 2 := by
    have h1 : t.emod (2 ^ (8 * 2)) < 2 ^ (8 * 2) := Int.emod_lt_of_pos t (by norm_num)
    have h2 : (2 : Int) ^ (8 * 2) = 65536 := by norm_num
    have h3 : (256 : Nat) ^ 2 = 65536 := by norm_num
    omega
  simp only [ByteOrder.assemble, intToLE, natToLE_length,
    assembleBE_reverse_natToLE _ _ hm]
  unfold toSigned
  have hpow : (2 : Int) ^ (8 * 2) = 65536 := by norm_num
  have hpow2 : (2 : Nat) ^ (8 * 2 - 1) = 32768 := by norm_num
  rw [hpow, hpow2]
  rcases le_or_lt 0 t with hpos | hneg
  · have he : t.emod 65536 = t := Int.emod_eq_of_lt hpos (by omega)
    rw [he]
    split <;> omega
  · have he : t.emod 65536 = t + 65536 := by
      have h2 : (t + 65536 * 1).emod 65536 = t.emod 65536 :=
        Int.add_mul_emod_self_left t 65536 1
      have h3 : (t + 65536).emod 65536 = t + 65536 := by
        apply Int.emod_eq_of_lt <;> omega
      have h4 : t + 65536 * 1 = t + 65536 := by ring
      rw [h4] at h2
      omega
    rw [he]
    split <;> omega

theorem readBytes_shift (pre bs : List Nat) (k w : Nat) :
    readBytes (pre ++ bs) (pre.length + k) w = readBytes bs k w := by
  simp [readBytes, List.drop_append]

theorem readBytes_within (c post : List Nat) (k w : Nat) (h : k + w ≤ c.length) :
    readBytes (c ++ post) k w = readBytes c k w := by
  unfold readBytes
  rw [List.drop_append_of_le_length (by omega)]
  rw [List.take_append_of_le_length]
  simp
  omega

theorem readBytes_all (c : List Nat) (w : Nat) (h : c.length = w) :
    readBytes c 0 w = c := by
  simp [readBytes, ← h]

theorem getD_shift (pre bs : List Nat) (k : Nat) :
    (pre ++ bs).getD (pre.length + k) 0 = bs.getD k 0 := by
  simp [List.getD, List.getElem?_append_right (by omega : pre.length ≤ pre.length + k)]

theorem getD_within (c post : List Nat) (k : Nat) (h : k < c.length) :
    (c ++ post).getD k 0 = c.getD k 0 := by
  simp [List.getD, List.getElem?_append_left h]

theorem GemField.read_shift (f : GemField) (pre bs : List Nat) :
    f.read (pre ++ bs) pre.length = f.read bs 0 := by
  have hrb : ∀ k w, readBytes (pre ++ bs) (pre.length + k) w = readBytes bs k w :=
    fun k w => readBytes_shift pre bs k w
  have hrb0 : ∀ w, readBytes (pre ++ bs) pre.length w = readBytes bs 0 w := by
    intro w
    have := hrb 0 w
    simpa using this
  cases f with
  | numeric w ord => simp [GemField.read, hrb0]
  | floating w ord d => simp [GemField.read, hrb0]
  | byte =>
      have h0 := getD_shift pre bs 0
      rw [Nat.add_zero] at h0
      simp only [GemField.read, h0]
  | bytesRaw n => simp [GemField.read, hrb0]
  | dateTime => simp [GemField.read, hrb0]
  | numericArray c ew ord =>
      simp only [GemField.read, readArray, FieldValue.numList.injEq]
      apply List.map_congr_left
      intro i _
      simp [hrb]
  | floatingArray c ew ord d =>
      simp only [GemField.read, readArray, FieldValue.floatList.injEq]
      apply List.map_congr_left
      intro i _
      simp [hrb]

theorem GemField.read_take (f : GemField) (c post : List Nat) (h : c.length = f.size) :
    f.read (c ++ post) 0 = f.read c 0 := by
  cases f with
  | numeric w ord =>
      simp only [GemField.size] at h
      simp [GemField.read, readBytes_within c post 0 w (by omega)]
  | floating w ord d =>
      simp only [GemField.size] at h
      simp [GemField.read, readBytes_within c post 0 w (by omega)]
  | byte =>
      simp only [GemField.size] at h
      simp only [GemField.read, getD_within c post 0 (by omega)]
  | bytesRaw n =>
      simp only [GemField.size] at h
      simp [GemField.read, readBytes_within c post 0 n (by omega)]
  | dateTime =>
      simp only [GemField.size] at h
      simp [GemField.read, readBytes_within c post 0 6 (by omega)]
  | numericArray cnt ew ord =>
      simp only [GemField.size] at h
      simp only [GemField.read, readArray, FieldValue.numList.injEq]
      apply List.map_congr_left
      intro i hi
      rw [List.mem_range] at hi
      rw [readBytes_within c post (0 + i * ew) ew (by nlinarith)]
  | floatingArray cnt ew ord d =>
      simp only [GemField.size] at h
      simp only [GemField.read, readArray, FieldValue.floatList.injEq]
      apply List.map_congr_left
      intro i hi
      rw [List.mem_range] at hi
      rw [readBytes_within c post (0 + i * ew) ew (by nlinarith)]

theorem readArray_flatten {β : Type} (l : List β) (enc : β → List Nat) (ew : Nat)
    (dec : List Nat → α) (henc : ∀ b ∈ l, (enc b).length = ew) :
    readArray ((l.map enc).flatten) 0 l.length ew dec = l.map (fun b => dec (enc b)) := by
  induction l with
  | nil => simp [readArray]
  | cons b rest ih =>
      have hb : (enc b).length = ew := henc b (by simp)
      have hrest : ∀ x ∈ rest, (enc x).length = ew := fun x hx => henc x (by simp [hx])
      simp only [List.map_cons, List.flatten_cons, List.length_cons,
        readArray, List.range_succ_eq_map, List.map_map]
      congr 1
      · rw [Nat.zero_add, Nat.zero_mul]
        have : readBytes (enc b ++ (rest.map enc).flatten) 0 ew = enc b := by
          rw [readBytes_within _ _ 0 ew (by omega), readBytes_all _ _ hb]
        rw [this]
      · have hshift : ∀ i : Nat, readBytes (enc b ++ (rest.map enc).flatten) (0 + Nat.succ i * ew) ew
            = readBytes ((rest.map enc).flatten) (0 + i * ew) ew := by
          intro i
          have h1 : 0 + Nat.succ i * ew = (enc b).length + (0 + i * ew) := by
            simp only [Nat.succ_eq_add_one, hb]
            ring
          rw [h1, readBytes_shift]
        have := ih hrest
        simp only [readArray] at this
        rw [← this]
        apply List.map_congr_left
        intro i _
        simp only [Function.comp]
        rw [hshift i]

theorem flatten_map_length {β : Type} (l : List β) (enc : β → List Nat) (ew : Nat)
    (h : ∀ b ∈ l, (enc b).length = ew) : ((l.map enc).flatten).length = l.length * ew := by
  induction l with
  | nil => simp
  | cons b rest ih =>
      simp only [List.map_cons, List.flatten_cons, List.length_append, List.length_cons]
      rw [h b (by simp), ih (fun x hx => h x (by simp [hx]))]
      ring

theorem read_numeric_be (w n : Nat) (post : List Nat) (h : n < 256 ^ w) :
    (GemField.numeric w .hiToLo).read (natToBE w n ++ post) 0 = .num (n : Int) := by
  rw [GemField.read_take _ _ _ (by simp [GemField.size, natToBE_length])]
  simp only [GemField.read, readBytes_all _ w (natToBE_length w n)]
  rw [assemble_be_natToBE w n h]

theorem read_numeric_le (w n : Nat) (post : List Nat) (h : n < 256 ^ w) :
    (GemField.numeric w .loToHi).read (natToLE w n ++ post) 0 = .num (n : Int) := by
  rw [GemField.read_take _ _ _ (by simp [GemField.size, natToLE_length])]
  simp only [GemField.read, readBytes_all _ w (natToLE_length w n)]
  rw [assemble_le_natToLE w n h]

theorem read_floating_be (w n : Nat) (d : ℚ) (post : List Nat) (h : n < 256 ^ w) :
    (GemField.floating w .hiToLo d).read (natToBE w n ++ post) 0 = .float ((n : ℚ) / d) := by
  rw [GemField.read_take _ _ _ (by simp [GemField.size, natToBE_length])]
  simp only [GemField.read, readBytes_all _ w (natToBE_length w n)]
  rw [assemble_be_natToBE w n h]
  norm_num

theorem read_byte_single (b : Nat) (post : List Nat) :
    GemField.byte.read ([b] ++ post) 0 = .num (b : Int) := by
  rw [GemField.read_take _ _ _ (by simp [GemField.size])]
  simp [GemField.read, List.getD]

theorem read_numericArray_le (c ew : Nat) (l : List Nat) (post : List Nat)
    (hc : l.length = c) (hl : ∀ x ∈ l, x < 256 ^ ew) :
    (GemField.numericArray c ew .loToHi).read ((l.map (natToLE ew)).flatten ++ post) 0
      = .numList (l.map (fun (n : Nat) => (n : Int))) := by
  have hlen : ((l.map (natToLE ew)).flatten).length = c * ew := by
    rw [flatten_map_length l (natToLE ew) ew (fun b _ => natToLE_length ew b), hc]
  rw [GemField.read_take _ _ _ (by simp [GemField.size, hlen])]
  simp only [GemField.read, FieldValue.numList.injEq]
  rw [← hc, readArray_flatten l (natToLE ew) ew _ (fun b _ => natToLE_length ew b)]
  apply List.map_congr_left
  intro x hx
  exact assemble_le_natToLE ew x (hl x hx)

theorem read_floatingArray_le (c ew : Nat) (d : ℚ) (l : List Nat) (post : List Nat)
    (hc : l.length = c) (hl : ∀ x ∈ l, x < 256 ^ ew) :
    (GemField.floatingArray c ew .loToHi d).read ((l.map (natToLE ew)).flatten ++ post) 0
      = .floatList (l.map (fun (n : Nat) => (n : ℚ) / d)) := by
  have hlen : ((l.map (natToLE ew)).flatten).length = c * ew := by
    rw [flatten_map_length l (natToLE ew) ew (fun b _ => natToLE_length ew b), hc]
  rw [GemField.read_take _ _ _ (by simp [GemField.size, hlen])]
  simp only [GemField.read, FieldValue.floatList.injEq]
  rw [← hc, readArray_flatten l (natToLE ew) ew _ (fun b _ => natToLE_length ew b)]
  apply List.map_congr_left
  intro x hx
  rw [assemble_le_natToLE ew x (hl x hx)]
  norm_num

theorem read_temperatureArray (c : Nat) (d : ℚ) (l : List Int) (post : List Nat)
    (hc : l.length = c) (hl : ∀ x ∈ l, -(2 ^ 15) ≤ x ∧ x < 2 ^ 15) :
    (GemField.floatingArray c 2 .loToHiSigned d).read ((l.map (intToLE 2)).flatten ++ post) 0
      = .floatList (l.map (fun (t : Int) => (t : ℚ) / d)) := by
  have hlen : ((l.map (intToLE 2)).flatten).length = c * 2 := by
    rw [flatten_map_length l (intToLE 2) 2 (fun b _ => intToLE_length 2 b), hc]
  rw [GemField.read_take _ _ _ (by simp [GemField.size, hlen])]
  simp only [GemField.read, FieldValue.floatList.injEq]
  rw [← hc, readArray_flatten l (intToLE 2) 2 _ (fun b _ => intToLE_length 2 b)]
  apply List.map_congr_left
  intro x hx
  rw [assemble_signed_intToLE x (hl x hx).1 (hl x hx).2]

theorem read_dateTime_chunk (bs : List Nat) (post : List Nat) (h : bs.length = 6) :
    GemField.dateTime.read (bs ++ post) 0 = .dateTime bs := by
  rw [GemField.read_take _ _ _ (by simp [GemField.size, h])]
  simp [GemField.read, readBytes_all _ 6 h]

theorem read_bytesRaw_chunk (n : Nat) (bs : List Nat) (post : List Nat) (h : bs.length = n) :
    (GemField.bytesRaw n).read (bs ++ post) 0 = .bytesVal bs := by
  rw [GemField.read_take _ _ _ (by simp [GemField.size, h])]
  simp [GemField.read, readBytes_all _ n h]

theorem readFields_append (fs1 fs2 : List (String × GemField)) (packet : List Nat) (off : Nat) :
    readFields (fs1 ++ fs2) packet off
      = readFields fs1 packet off
        ++ readFields fs2 packet (off + ((fs1.map (fun kv => kv.2.size)).sum)) := by
  induction fs1 generalizing off with
  | nil => simp [readFields]
  | cons kv rest ih =>
      obtain ⟨k, f⟩ := kv
      have step : readFields (((k, f) :: rest) ++ fs2) packet off
          = (k, f.read packet off) :: readFields (rest ++ fs2) packet (off + f.size) := rfl
      rw [step, ih (off + f.size)]
      simp [readFields, Nat.add_assoc]

theorem readFields_specs (specs : List FieldSpec) (pre post : List Nat)
    (h : ∀ s ∈ specs, s.chunk.length = s.fld.size) :
    readFields (specs.map fun s => (s.name, s.fld))
        (pre ++ ((specs.map FieldSpec.chunk).flatten ++ post)) pre.length
      = specs.map fun s => (s.name, s.fld.read s.chunk 0) := by
  induction specs generalizing pre with
  | nil => simp [readFields]
  | cons s rest ih =>
      have hs : s.chunk.length = s.fld.size := h s (by simp)
      have hrest : ∀ x ∈ rest, x.chunk.length = x.fld.size := fun x hx => h x (by simp [hx])
      simp only [List.map_cons, List.flatten_cons, readFields]
      congr 1
      · congr 1
        have hassoc : pre ++ (s.chunk ++ (rest.map FieldSpec.chunk).flatten ++ post)
            = pre ++ (s.chunk ++ ((rest.map FieldSpec.chunk).flatten ++ post)) := by
          simp [List.append_assoc]
        rw [hassoc, GemField.read_shift s.fld pre _,
          GemField.read_take s.fld s.chunk _ hs]
      · have hassoc : pre ++ (s.chunk ++ (rest.map FieldSpec.chunk).flatten ++ post)
            = (pre ++ s.chunk) ++ ((rest.map FieldSpec.chunk).flatten ++ post) := by
          simp [List.append_assoc]
        have hoff : pre.length + s.fld.size = (pre ++ s.chunk).length := by
          simp [hs]
        rw [hassoc, hoff, ih (pre ++ s.chunk) hrest]

/-- The decoded dictionary that the round-trip buffer should produce:
each field name paired with the chosen value, decoded form. -/
def valueList (pf : PacketFormat) (v : PacketValues) : List (String × FieldValue) :=
  [("header", .num (v.header : Int)),
   ("voltage", .float ((v.voltage : ℚ) / 10)),
   ("absolute_watt_seconds", .numList (v.absolute_watt_seconds.map (fun (n : Nat) => (n : Int))))]
  ++ (if pf.has_net_metering then
        [("polarized_watt_seconds",
          FieldValue.numList (v.polarized_watt_seconds.map (fun (n : Nat) => (n : Int))))]
      else [])
  ++ [("serial_number", .num (v.serial_number : Int)),
      ("reserved", .num (v.reserved : Int)),
      ("device_id", .num (v.device_id : Int)),
      ("currents", .floatList (v.currents.map (fun (n : Nat) => (n : ℚ) / 50))),
      ("seconds", .num (v.seconds : Int)),
      ("pulse_counts", .numList (v.pulse_counts.map (fun (n : Nat) => (n : Int)))),
      ("temperatures", .floatList (v.temperatures.map (fun (t : Int) => (t : ℚ) / 2)))]
  ++ (if pf.num_channels == 32 then [("spare_bytes", FieldValue.bytesVal v.spare_bytes)] else [])
  ++ (if pf.has_time_stamp then [("time_stamp", FieldValue.dateTime v.time_stamp)] else [])
  ++ [("footer", .num 0xFFFE)]

theorem forall_mem_ite_nil {P : α → Prop} {b : Prop} [Decidable b] {x : α}
    (h : P x) : ∀ s ∈ (if b then [x] else []), P s := by
  intro s hs
  split at hs
  · simp only [List.mem_singleton] at hs
    subst hs
    exact h
  · simp at hs

theorem sum_map_length_natToLE (w : Nat) (l : List Nat) :
    (l.map (List.length ∘ natToLE w)).sum = l.length * w := by
  induction l with
  | nil => simp
  | cons b rest ih =>
      simp only [List.map_cons, List.sum_cons, List.length_cons, Function.comp,
        natToLE_length, ih]
      ring

theorem sum_map_length_intToLE (w : Nat) (l : List Int) :
    (l.map (List.length ∘ intToLE w)).sum = l.length * w := by
  induction l with
  | nil => simp
  | cons b rest ih =>
      simp only [List.map_cons, List.sum_cons, List.length_cons, Function.comp,
        intToLE_length, ih]
      ring

theorem specList_sizes (pf : PacketFormat) (v : PacketValues) (hv : validValues pf v) :
    ∀ s ∈ specList pf v, s.chunk.length = s.fld.size := by
  obtain ⟨h1, h2, h3, h4, h5, h6, h7, h8, h9, h10, h11, h12, h13, h14, h15, h16, h17, h18⟩ := hv
  simp only [specList, List.mem_append, List.mem_cons, List.mem_ite_nil_right]
  intro s hs
  rcases hs with (((((rfl | rfl | rfl | h0) | ⟨hb, rfl | h0⟩) |
    (rfl | rfl | rfl | rfl | rfl | rfl | rfl | h0)) | ⟨hb, rfl | h0⟩) | ⟨hb, rfl | h0⟩) |
    rfl | h0 <;>
    first
    | simp at h0
    | simp [GemField.size, natToBE_length, natToLE_length, intToLE_length,
        sum_map_length_natToLE, sum_map_length_intToLE, h3, h5, h10, h13, h15, h17, h18,
        List.length_flatten, List.map_map]

theorem fields_eq_specList (pf : PacketFormat) (v : PacketValues) :
    pf.fields = ((specList pf v).map fun s => (s.name, s.fld)) ++ [("checksum", GemField.byte)] := by
  simp only [PacketFormat.fields, specList, List.map_append, apply_ite (List.map _),
    List.map_cons, List.map_nil]
  cases pf.has_net_metering <;> cases pf.has_time_stamp <;> cases h32 : pf.num_channels == 32 <;>
    simp

theorem size_eq_sum (pf : PacketFormat) :
    pf.size = ((pf.fields).map (fun kv => kv.2.size)).sum := by
  rw [PacketFormat.size, List.sum_eq_foldl, List.foldl_map]

theorem read_numeric_be0 (w n : Nat) (h : n < 256 ^ w) :
    (GemField.numeric w .hiToLo).read (natToBE w n) 0 = .num (n : Int) := by
  have := read_numeric_be w n [] h
  simpa using this

theorem read_numeric_le0 (w n : Nat) (h : n < 256 ^ w) :
    (GemField.numeric w .loToHi).read (natToLE w n) 0 = .num (n : Int) := by
  have := read_numeric_le w n [] h
  simpa using this

theorem read_floating_be0 (w n : Nat) (d : ℚ) (h : n < 256 ^ w) :
    (GemField.floating w .hiToLo d).read (natToBE w n) 0 = .float ((n : ℚ) / d) := by
  have := read_floating_be w n d [] h
  simpa using this

theorem read_byte_single0 (b : Nat) :
    GemField.byte.read [b] 0 = .num (b : Int) := by
  have := read_byte_single b []
  simpa using this

theorem read_numericArray_le0 (c ew : Nat) (l : List Nat)
    (hc : l.length = c) (hl : ∀ x ∈ l, x < 256 ^ ew) :
    (GemField.numericArray c ew .loToHi).read ((l.map (natToLE ew)).flatten) 0
      = .numList (l.map (fun (n : Nat) => (n : Int))) := by
  have := read_numericArray_le c ew l [] hc hl
  simpa using this

theorem read_floatingArray_le0 (c ew : Nat) (d : ℚ) (l : List Nat)
    (hc : l.length = c) (hl : ∀ x ∈ l, x < 256 ^ ew) :
    (GemField.floatingArray c ew .loToHi d).read ((l.map (natToLE ew)).flatten) 0
      = .floatList (l.map (fun (n : Nat) => (n : ℚ) / d)) := by
  have := read_floatingArray_le c ew d l [] hc hl
  simpa using this

theorem read_temperatureArray0 (c : Nat) (d : ℚ) (l : List Int)
    (hc : l.length = c) (hl : ∀ x ∈ l, -(2 ^ 15) ≤ x ∧ x < 2 ^ 15) :
    (GemField.floatingArray c 2 .loToHiSigned d).read ((l.map (intToLE 2)).flatten) 0
      = .floatList (l.map (fun (t : Int) => (t : ℚ) / d)) := by
  have := read_temperatureArray c d l [] hc hl
  simpa using this

theorem read_dateTime_chunk0 (bs : List Nat) (h : bs.length = 6) :
    GemField.dateTime.read bs 0 = .dateTime bs := by
  have := read_dateTime_chunk bs [] h
  simpa using this

theorem read_bytesRaw_chunk0 (n : Nat) (bs : List Nat) (h : bs.length = n) :
    (GemField.bytesRaw n).read bs 0 = .bytesVal bs := by
  have := read_bytesRaw_chunk n bs [] h
  simpa using this

theorem reads_eq_valueList (pf : PacketFormat) (v : PacketValues) (hv : validValues pf v) :
    ((specList pf v).map fun s => (s.name, s.fld.read s.chunk 0)) = valueList pf v := by
  obtain ⟨h1, h2, h3, h4, h5, h6, h7, h8, h9, h10, h11, h12, h13, h14, h15, h16, h17, h18⟩ := hv
  simp only [specList, valueList, List.map_append, apply_ite (List.map _),
    List.map_cons, List.map_nil]
  rw [read_numeric_be0 3 v.header h1,
    read_floating_be0 2 v.voltage 10 h2,
    read_numericArray_le0 pf.num_channels 5 v.absolute_watt_seconds h3 h4,
    read_numericArray_le0 pf.num_channels 5 v.polarized_watt_seconds h5 h6,
    read_numeric_be0 2 v.serial_number h7,
    read_byte_single0 v.reserved,
    read_numeric_be0 1 v.device_id h9,
    read_floatingArray_le0 pf.num_channels 2 50 v.currents h10 h11,
    read_numeric_le0 3 v.seconds h12,
    read_numericArray_le0 4 3 v.pulse_counts h13 h14,
    read_temperatureArray0 8 2 v.temperatures h15 h16,
    read_bytesRaw_chunk0 2 v.spare_bytes h17,
    read_dateTime_chunk0 v.time_stamp h18,
    read_numeric_be0 2 0xFFFE (by norm_num)]
  norm_num

theorem lookupInt_footer (pf : PacketFormat) (v : PacketValues) (x : FieldValue) :
    lookupInt (valueList pf v ++ [("checksum", x)]) "footer" = some 0xFFFE := by
  unfold lookupInt valueList
  cases hnet : pf.has_net_metering <;> cases hts : pf.has_time_stamp <;>
    cases h32 : pf.num_channels == 32 <;> simp [List.lookup]

theorem mkPacket_valueList (pf : PacketFormat) (v : PacketValues) (x : FieldValue) :
    mkPacket pf (valueList pf v ++ [("checksum", x)]) = some (expectedPacket pf v) := by
  unfold mkPacket lookupInt lookupFloat lookupIntList lookupFloatList lookupDateTime
    valueList expectedPacket
  cases hnet : pf.has_net_metering <;> cases hts : pf.has_time_stamp <;>
    cases h32 : pf.num_channels == 32 <;> simp [List.lookup]

theorem getD_append_self (l : List Nat) (x : Nat) : (l ++ [x]).getD l.length 0 = x := by
  simp [List.getD, List.getElem?_append_right (le_refl l.length)]

theorem parse_encode (pf : PacketFormat) (v : PacketValues) (hv : validValues pf v) :
    pf.parse (encodePacket pf v) = .ok (expectedPacket pf v) := by
  have hsz := specList_sizes pf v hv
  have hlen_body : (encodeBody pf v).length = ((specList pf v).map (fun s => s.fld.size)).sum := by
    unfold encodeBody
    rw [List.length_flatten, List.map_map]
    congr 1
    exact List.map_congr_left (fun s hs => hsz s hs)
  have hsize : pf.size = (encodeBody pf v).length + 1 := by
    rw [size_eq_sum, fields_eq_specList pf v, List.map_append, List.sum_append, List.map_map]
    simp only [List.map_cons, List.map_nil, List.sum_cons, List.sum_nil]
    rw [hlen_body]
    have hcomp : (List.map ((fun (kv : String × GemField) => kv.2.size) ∘
        (fun (s : FieldSpec) => (s.name, s.fld))) (specList pf v)).sum
        = (List.map (fun (s : FieldSpec) => s.fld.size) (specList pf v)).sum := by
      rfl
    rw [hcomp]
    simp [GemField.size]
  have hbuf_len : (encodePacket pf v).length = pf.size := by
    simp [encodePacket, hsize]
  have hnotshort : ¬ ((encodePacket pf v).length < pf.size) := by
    rw [hbuf_len]
    omega
  have hcs : checksumCalc (encodePacket pf v) pf.size
      = (encodePacket pf v).getD (pf.size - 1) 0 := by
    unfold checksumCalc encodePacket
    rw [hsize]
    simp only [Nat.add_sub_cancel]
    rw [List.take_left, ← List.sum_eq_foldl, getD_append_self]
  have hckfalse : ¬ (checksumCalc (encodePacket pf v) pf.size
      ≠ (encodePacket pf v).getD (pf.size - 1) 0) := by
    simp [hcs]
  have hargs : ∃ x, readFields pf.fields (encodePacket pf v) 0
      = valueList pf v ++ [("checksum", x)] := by
    rw [fields_eq_specList pf v, readFields_append]
    refine ⟨GemField.byte.read (encodePacket pf v)
      (0 + ((((specList pf v).map (fun s => (s.name, s.fld))).map (fun kv => kv.2.size)).sum)), ?_⟩
    congr 1
    have hshape : encodePacket pf v
        = [] ++ (((specList pf v).map FieldSpec.chunk).flatten ++ [(encodeBody pf v).sum % 256]) := by
      simp [encodePacket, encodeBody]
    rw [hshape]
    have h0 : (0 : Nat) = ([] : List Nat).length := rfl
    rw [h0, readFields_specs _ _ _ hsz, reads_eq_valueList pf v hv]
  obtain ⟨x, hargs⟩ := hargs
  simp only [PacketFormat.parse, hargs]
  rw [if_neg hnotshort, if_neg hckfalse]
  simp [lookupInt_footer, mkPacket_valueList]

/-- Claim C4: for every ApiCall and every execution of the call_api scoped
transaction, protocol.end_api_request() is invoked exactly once on every
exit path, including exits triggered by a fault raised inside the scoped
block or by the yielded sender itself.  The block is arbitrary (it may
represent a faulting body, of any result type); the only assumption is
that the scoped block does not itself invoke end_api_request. -/
theorem claim4_end_once {T R : Type} {β : Type} (api : ApiCall T R)
    (protocol : BidirectionalProtocol)
    (block : (T → List Event × Option R) → List Event × β)
    (h : (block (callApiSender api protocol)).1.count Event.endReq = 0) :
    (call_api api protocol block).1.count Event.endReq = 1 := by
  unfold call_api BidirectionalProtocol.begin_api_request BidirectionalProtocol.end_api_request
  simp [List.count_append, List.count_cons, h]

/-- Witness for C4 at a concrete call with a faulting block: the block
immediately raises (returns no result) and the end event still appears
exactly once. -/
theorem claim4_witness :
    (call_api GET_SERIAL_NUMBER { begin_delay := 1, send_delay := 2, response := "x" }
      (fun _ => ([], (none : Option Int)))).1.count Event.endReq = 1 :=
  claim4_end_once _ _ _ (by decide)

/-- Claim C5: within one call_api transaction, begin_api_request is
followed by a suspension for exactly the delay it returned before the
sender is available (the block, and with it the sender, runs after that
sleep event), and each sender invocation sends the formatted request,
suspends for exactly the delay returned by send_api_request, and only
then receives and parses the response; send strictly precedes its
suspend, which strictly precedes receive, as the event order shows. -/
theorem claim5_ordering {T R : Type} {β : Type} (api : ApiCall T R)
    (protocol : BidirectionalProtocol)
    (block : (T → List Event × Option R) → List Event × β) :
    ((call_api api protocol block).1
      = [Event.beginReq, Event.sleepFor (protocol.begin_api_request).2]
        ++ (block (callApiSender api protocol)).1 ++ [Event.endReq]) ∧
    (∀ arg, callApiSender api protocol arg
      = ([Event.send (api.formatter arg),
          Event.sleepFor (api.send_request protocol arg).2,
          Event.receive],
         api.parser protocol.response)) :=
  ⟨rfl, fun _ => rfl⟩

/-- Claim C7: for each of the five format variants, size equals the sum
of its declared field widths, and the BIN32 variants' channel-independent
overhead is exactly 2 bytes larger than the BIN48 variants' (12 bytes per
channel for the net-metering pair, 7 for the absolute-only pair),
reflecting the spare-bytes field present only in 32-channel formats. -/
theorem claim7_sizes :
    (BIN48_NET_TIME.size = ((BIN48_NET_TIME.fields.map (fun kv => kv.2.size)).sum) ∧
     BIN48_NET.size = ((BIN48_NET.fields.map (fun kv => kv.2.size)).sum) ∧
     BIN48_ABS.size = ((BIN48_ABS.fields.map (fun kv => kv.2.size)).sum) ∧
     BIN32_NET.size = ((BIN32_NET.fields.map (fun kv => kv.2.size)).sum) ∧
     BIN32_ABS.size = ((BIN32_ABS.fields.map (fun kv => kv.2.size)).sum)) ∧
    BIN32_NET.size - 32 * 12 = (BIN48_NET.size - 48 * 12) + 2 ∧
    BIN32_ABS.size - 32 * 7 = (BIN48_ABS.size - 48 * 7) + 2 := by
  decide

/-- Claim C8: GET_SERIAL_NUMBER's formatter ignores its argument and
emits the fixed command literal, its parser converts the decimal
response text to an integer, and get_serial_number on a protocol whose
receive_api_response returns the text "123456" returns the integer
123456. -/
theorem claim8_get_serial_number :
    (∀ arg : Unit, GET_SERIAL_NUMBER.formatter arg = CMD_GET_SERIAL_NUMBER) ∧
    GET_SERIAL_NUMBER.parser "123456" = some 123456 ∧
    (∀ protocol : BidirectionalProtocol, protocol.response = "123456" →
      (get_serial_number protocol).2 = some 123456) := by
  refine ⟨fun _ => rfl, by decide, fun protocol h => ?_⟩
  simp only [get_serial_number, call_api, callApiSender, ApiCall.receive_response,
    ApiCall.send_request, BidirectionalProtocol.receive_api_response,
    GET_SERIAL_NUMBER, h]
  decide

/-- Witness for C8 at a concrete protocol returning "123456". -/
theorem claim8_witness :
    (get_serial_number { begin_delay := 1, send_delay := 2, response := "123456" }).2
      = some 123456 :=
  claim8_get_serial_number.2.2 _ rfl

/-- Claim C1: for every packet format among the five variants and every
choice of valid field values, if a buffer of the format's size is
constructed by encoding those field values in declared field order with
footer 0xFFFE and a checksum byte equal to the sum of the preceding
bytes mod 256, then parse on that buffer succeeds and the returned
Packet holds exactly those field values (voltage, per-channel
watt-second counters, serial number, device id, seconds, currents,
pulse counts, temperatures), each scaled field divided by its declared
divisor. -/
theorem claim1_roundtrip (pf : PacketFormat) (_hpf : pf ∈ gemFormats)
    (v : PacketValues) (hv : validValues pf v) :
    pf.parse (encodePacket pf v) = .ok (expectedPacket pf v) :=
  parse_encode pf v hv

/-- Concrete 32-channel field values for witnesses. -/
def wVals32 : PacketValues :=
  { header := 1
    voltage := 1200
    absolute_watt_seconds := List.replicate 32 5
    polarized_watt_seconds := List.replicate 32 6
    serial_number := 1069
    reserved := 0
    device_id := 7
    currents := List.replicate 32 250
    seconds := 12345
    pulse_counts := [1, 2, 3, 4]
    temperatures := [-20, 41, 0, -1, 100, -100, 5, 6]
    spare_bytes := [0, 0]
    time_stamp := [25, 12, 31, 23, 59, 58] }

/-- Witness for C1: the round trip at the BIN32-NET format and concrete
values. -/
theorem claim1_witness :
    BIN32_NET.parse (encodePacket BIN32_NET wVals32)
      = .ok (expectedPacket BIN32_NET wVals32) :=
  claim1_roundtrip BIN32_NET (by decide) wVals32 (by decide)

theorem mkPacket_format (pf : PacketFormat) (args : List (String × FieldValue)) (p : Packet)
    (h : mkPacket pf args = some p) : p.packet_format = pf := by
  unfold mkPacket at h
  split at h
  · have hp := Option.some_inj.mp h
    subst hp
    rfl
  · simp at h

theorem parse_ok_format (pf : PacketFormat) (packet : List Nat) (p : Packet)
    (h : pf.parse packet = .ok p) : p.packet_format = pf := by
  unfold PacketFormat.parse at h
  split at h
  · simp at h
  · split at h
    · simp at h
    · dsimp only at h
      split at h
      · simp at h
      · split at h
        · simp at h
        · split at h
          · simp at h
          · rename_i p' hmk
            simp only [Except.ok.injEq] at h
            subst h
            exact mkPacket_format pf _ _ hmk

/-- Claim C9: for every Packet produced by parse under any of the five
formats, the derived properties equal the maximum value expressible in
the corresponding field's byte width: max_seconds and max_pulse_count
are 2^24 - 1 (3-byte fields) and max_absolute_watt_seconds is 2^40 - 1
(5-byte array elements). -/
theorem claim9_max_props (pf : PacketFormat) (hpf : pf ∈ gemFormats)
    (packet : List Nat) (p : Packet) (h : pf.parse packet = .ok p) :
    p.max_seconds = some (2 ^ 24 - 1) ∧
    p.max_pulse_count = some (2 ^ 24 - 1) ∧
    p.max_absolute_watt_seconds = some (2 ^ 40 - 1) := by
  have hfmt := parse_ok_format pf packet p h
  fin_cases hpf <;>
    simp only [Packet.max_seconds, Packet.max_pulse_count,
      Packet.max_absolute_watt_seconds, hfmt] <;>
    decide

/-- Witness for C9 at a concrete successful parse. -/
theorem claim9_witness :
    ∃ p, BIN32_ABS.parse (encodePacket BIN32_ABS wVals32) = .ok p ∧
      p.max_seconds = some (2 ^ 24 - 1) ∧
      p.max_pulse_count = some (2 ^ 24 - 1) ∧
      p.max_absolute_watt_seconds = some (2 ^ 40 - 1) :=
  ⟨expectedPacket BIN32_ABS wVals32,
   parse_encode BIN32_ABS wVals32 (by decide),
   claim9_max_props BIN32_ABS (by decide) _ _ (parse_encode BIN32_ABS wVals32 (by decide))⟩

/-- Claim C10 (implicit): for every Packet parsed under an absolute-only
format (BIN48-ABS or BIN32-ABS, where has_net_metering is false),
accessing the max_polarized_watt_seconds property fails — the lookup of
the absent polarized_watt_seconds field yields nothing (modelling the
KeyError the Python property raises) — while under the net-metering
formats it returns 2^40 - 1. -/
theorem claim10_max_polarized :
    (∀ pf ∈ [BIN48_ABS, BIN32_ABS], ∀ (packet : List Nat) (p : Packet),
      pf.parse packet = .ok p → p.max_polarized_watt_seconds = none) ∧
    (∀ pf ∈ [BIN48_NET_TIME, BIN48_NET, BIN32_NET], ∀ (packet : List Nat) (p : Packet),
      pf.parse packet = .ok p → p.max_polarized_watt_seconds = some (2 ^ 40 - 1)) := by
  constructor <;>
    (intro pf hpf packet p h
     have hfmt := parse_ok_format pf packet p h
     fin_cases hpf <;>
       simp only [Packet.max_polarized_watt_seconds, hfmt] <;>
       decide)

/-- Witness for C10: one successful absolute-only parse where the
property fails, one net-metering parse where it is 2^40 - 1. -/
theorem claim10_witness :
    (∃ p, BIN32_ABS.parse (encodePacket BIN32_ABS wVals32) = .ok p ∧
      p.max_polarized_watt_seconds = none) ∧
    (∃ p, BIN32_NET.parse (encodePacket BIN32_NET wVals32) = .ok p ∧
      p.max_polarized_watt_seconds = some (2 ^ 40 - 1)) :=
  ⟨⟨expectedPacket BIN32_ABS wVals32, parse_encode BIN32_ABS wVals32 (by decide),
    claim10_max_polarized.1 BIN32_ABS (by decide) _ _
      (parse_encode BIN32_ABS wVals32 (by decide))⟩,
   ⟨expectedPacket BIN32_NET wVals32, parse_encode BIN32_NET wVals32 (by decide),
    claim10_max_polarized.2 BIN32_NET (by decide) _ _
      (parse_encode BIN32_NET wVals32 (by decide))⟩⟩

/-- The concrete buffer refuting claim C3 as stated: a valid BIN32-ABS
packet (269 bytes) followed by one extra byte.  parse's checksum
validation uses only the first 269 bytes and passes (parse in fact
succeeds), while the claimed formula — sum of all bytes of the buffer
except the last, compared against the buffer's last byte — reports a
mismatch. -/
def claim3Buf : List Nat := List.replicate 266 0 ++ [255, 254, 253, 7]

set_option maxRecDepth 100000 in
/-- Counterexample to claim C3 as stated: on a buffer strictly longer
than the format's size, the checksum validation of parse does not fail,
yet (sum of all bytes except the last) mod 256 differs from the last
byte of the buffer; parse even succeeds on this buffer. -/
theorem claim3_counterexample :
    BIN32_ABS.size ≤ claim3Buf.length ∧
    ¬((checksumCalc claim3Buf BIN32_ABS.size ≠ claim3Buf.getD (BIN32_ABS.size - 1) 0) ↔
      (claim3Buf.dropLast.foldl (fun a b => a + b) 0 % 256 ≠ claim3Buf.getLastD 0)) ∧
    (BIN32_ABS.parse claim3Buf).isOk = true := by
  decide

/-- Claim C3 as amended: for every buffer whose length is exactly the
format's size, parse's checksum validation computes (sum of all bytes
except the last) mod 256 and fails if and only if that value does not
equal the last byte of the buffer.  (For longer buffers the code uses
only the first `size` bytes: it sums bytes 0..size-2 and compares
against the byte at index size-1, not the buffer's last byte.) -/
theorem claim3_amended (pf : PacketFormat) (_hpf : pf ∈ gemFormats) (packet : List Nat)
    (h : packet.length = pf.size) :
    (checksumCalc packet pf.size ≠ packet.getD (pf.size - 1) 0) ↔
      ((packet.dropLast.foldl (fun a b => a + b) 0) % 256 ≠ packet.getLastD 0) := by
  rw [← h]
  unfold checksumCalc
  rw [← List.dropLast_eq_take, List.getLastD_eq_getLast?, List.getLast?_eq_getElem?]
  simp [List.getD]

set_option maxRecDepth 100000 in
/-- Witness for the amended C3 at a concrete exact-length buffer. -/
theorem claim3_witness :
    (checksumCalc (List.replicate 266 0 ++ [255, 254, 253]) BIN32_ABS.size
        ≠ (List.replicate 266 0 ++ [255, 254, 253]).getD (BIN32_ABS.size - 1) 0) ↔
      (((List.replicate 266 0 ++ [255, 254, 253]).dropLast.foldl (fun a b => a + b) 0) % 256
        ≠ (List.replicate 266 0 ++ [255, 254, 253]).getLastD 0) :=
  claim3_amended BIN32_ABS (by decide) _ (by decide)

/-- Claim C6: for every buffer of sufficient length that passes checksum
validation but whose decoded footer field is any value other than
0xFFFE, parse fails with MalformedPacket and the failure message
contains the packet's bytes rendered as hexadecimal text (the message
ends with the hexadecimal rendering of the whole buffer). -/
theorem claim6_footer_error (pf : PacketFormat) (_hpf : pf ∈ gemFormats) (packet : List Nat)
    (hlen : ¬ packet.length < pf.size)
    (hck : ¬ checksumCalc packet pf.size ≠ packet.getD (pf.size - 1) 0)
    (i : Int) (hfoot : lookupInt (readFields pf.fields packet 0) "footer" = some i)
    (hne : i ≠ 0xFFFE) :
    ∃ intro0, pf.parse packet = .error (.malformedPacket (intro0 ++ hexStr packet)) := by
  refine ⟨"bad footer " ++ hexNum i ++ " in packet: ", ?_⟩
  unfold PacketFormat.parse
  rw [if_neg hlen, if_neg hck]
  dsimp only
  rw [hfoot]
  dsimp only
  rw [if_pos hne]

/-- All-zero buffer of the BIN32-ABS size, used as a concrete bad-footer
packet: length and checksum pass, the decoded footer is 0. -/
def zeroBuf269 : List Nat := List.replicate 269 0

set_option maxRecDepth 100000 in
/-- Witness for C6: the all-zero BIN32-ABS-sized buffer fails with a
MalformedPacket whose message ends with the buffer's hexadecimal
rendering. -/
theorem claim6_witness :
    ∃ intro0, BIN32_ABS.parse zeroBuf269
      = .error (.malformedPacket (intro0 ++ hexStr zeroBuf269)) :=
  claim6_footer_error BIN32_ABS (by decide) zeroBuf269 (by decide) (by decide)
    0 (by decide) (by decide)

theorem parse_completes (pf : PacketFormat) (hpf : pf ∈ gemFormats) (packet : List Nat) :
    (lookupInt (readFields pf.fields packet 0) "footer").isSome = true ∧
    (mkPacket pf (readFields pf.fields packet 0)).isSome = true := by
  fin_cases hpf <;>
    constructor <;>
    simp [PacketFormat.fields, BIN48_NET_TIME, BIN48_NET, BIN48_ABS, BIN32_NET, BIN32_ABS,
      readFields, GemField.read, lookupInt, lookupFloat, lookupIntList, lookupFloatList,
      lookupDateTime, mkPacket, List.lookup]

/-- Claim C2: for every buffer, parse raises MalformedPacket exactly
when the buffer is shorter than the format's declared size, or the
checksum check fails, or the decoded footer is not 0xFFFE; in every
failing case no Packet is produced, and otherwise a fully constructed
Packet is returned (parse never fails for any other reason — in
particular the construction of the Packet from the decoded fields
always succeeds for the five formats). -/
theorem claim2_parse_errors (pf : PacketFormat) (hpf : pf ∈ gemFormats) (packet : List Nat) :
    ((∃ msg, pf.parse packet = .error (.malformedPacket msg)) ↔
      (packet.length < pf.size ∨
       checksumCalc packet pf.size ≠ packet.getD (pf.size - 1) 0 ∨
       lookupInt (readFields pf.fields packet 0) "footer" ≠ some 0xFFFE)) ∧
    ((∃ p, pf.parse packet = .ok p) ↔
      ¬(packet.length < pf.size ∨
        checksumCalc packet pf.size ≠ packet.getD (pf.size - 1) 0 ∨
        lookupInt (readFields pf.fields packet 0) "footer" ≠ some 0xFFFE)) := by
  obtain ⟨hfoot, hmk⟩ := parse_completes pf hpf packet
  by_cases h1 : packet.length < pf.size
  · have hp : pf.parse packet = .error (.malformedPacket
        ("Packet too short. Expected " ++ toString pf.size
          ++ " bytes, found " ++ toString packet.length ++ " bytes.")) := by
      unfold PacketFormat.parse
      rw [if_pos h1]
    constructor
    · constructor
      · intro _
        exact Or.inl h1
      · intro _
        exact ⟨_, hp⟩
    · constructor
      · rintro ⟨p, hok⟩
        rw [hp] at hok
        simp at hok
      · intro hno
        exact absurd (Or.inl h1) hno
  · by_cases h2 : checksumCalc packet pf.size ≠ packet.getD (pf.size - 1) 0
    · have hp : pf.parse packet = .error (.malformedPacket
          ("bad checksum for packet: " ++ hexStr (packet.take pf.size))) := by
        unfold PacketFormat.parse
        rw [if_neg h1, if_pos h2]
      constructor
      · constructor
        · intro _
          exact Or.inr (Or.inl h2)
        · intro _
          exact ⟨_, hp⟩
      · constructor
        · rintro ⟨p, hok⟩
          rw [hp] at hok
          simp at hok
        · intro hno
          exact absurd (Or.inr (Or.inl h2)) hno
    · obtain ⟨i, hi⟩ := Option.isSome_iff_exists.mp hfoot
      by_cases h3 : lookupInt (readFields pf.fields packet 0) "footer" ≠ some 0xFFFE
      · have hine : i ≠ 0xFFFE := by
          rintro rfl
          exact h3 hi
        have hp : pf.parse packet = .error (.malformedPacket
            ("bad footer " ++ hexNum i ++ " in packet: " ++ hexStr packet)) := by
          unfold PacketFormat.parse
          rw [if_neg h1, if_neg h2]
          dsimp only
          rw [hi]
          dsimp only
          rw [if_pos hine]
        constructor
        · constructor
          · intro _
            exact Or.inr (Or.inr h3)
          · intro _
            exact ⟨_, hp⟩
        · constructor
          · rintro ⟨p, hok⟩
            rw [hp] at hok
            simp at hok
          · intro hno
            exact absurd (Or.inr (Or.inr h3)) hno
      · obtain ⟨p0, hp0⟩ := Option.isSome_iff_exists.mp hmk
        have hfe : lookupInt (readFields pf.fields packet 0) "footer" = some 0xFFFE :=
          not_ne_iff.mp h3
        have hp : pf.parse packet = .ok p0 := by
          unfold PacketFormat.parse
          rw [if_neg h1, if_neg h2]
          dsimp only
          rw [hfe]
          dsimp only
          rw [if_neg (by norm_num : ¬((0xFFFE : Int) ≠ 0xFFFE))]
          rw [hp0]
        constructor
        · constructor
          · rintro ⟨msg, hm⟩
            rw [hp] at hm
            simp at hm
          · intro hcond
            rcases hcond with hc | hc | hc
            · exact absurd hc h1
            · exact absurd hc h2
            · exact absurd hc h3
        · constructor
          · intro _
            push_neg
            refine ⟨by omega, not_not.mp h2, not_not.mp h3⟩
          · intro _
            exact ⟨p0, hp⟩

/-- Witness for C2 at the BIN48-NET format and the empty buffer: the
buffer is short, so parse raises MalformedPacket and produces no
Packet. -/
theorem claim2_witness :
    ((∃ msg, BIN48_NET.parse [] = .error (.malformedPacket msg)) ↔
      (([] : List Nat).length < BIN48_NET.size ∨
       checksumCalc [] BIN48_NET.size ≠ ([] : List Nat).getD (BIN48_NET.size - 1) 0 ∨
       lookupInt (readFields BIN48_NET.fields [] 0) "footer" ≠ some 0xFFFE)) ∧
    ((∃ p, BIN48_NET.parse [] = .ok p) ↔
      ¬(([] : List Nat).length < BIN48_NET.size ∨
        checksumCalc [] BIN48_NET.size ≠ ([] : List Nat).getD (BIN48_NET.size - 1) 0 ∨
        lookupInt (readFields BIN48_NET.fields [] 0) "footer" ≠ some 0xFFFE)) :=
  claim2_parse_errors BIN48_NET (by decide) []
